import Mathlib

/-!
# Verification of the property-editor application (src/main.py)

A shallow embedding of the parts of the program the specification talks
about: the `PropertyModel` table model with its `setData` write path and
`is_undo_redo` suppression flag, the `PropertyChangeCommand` undo command,
the undo command stack it is pushed onto, the delegate registry of
`PropertyEditor`, the `Vec3fDelegate` textual value protocol, and the
live filter.

Python's dynamically typed property values are modelled by a type
parameter `α` with decidable equality.  Effectful methods are embedded as
functions returning the updated state together with an
`Except PyErr`-classified outcome; emitted Qt signals are returned as
explicit data.
-/

namespace PropEdit

/-- Qt item-data roles dispatched on by `PropertyModel.data`/`setData`
(`Qt.DisplayRole`, `Qt.EditRole`, `Qt.DecorationRole`, `Qt.BackgroundRole`). -/
inductive Role where
  | display
  | edit
  | decoration
  | background
deriving DecidableEq

/-- Python exceptions the embedded code can raise (`IndexError` from list
indexing, `ValueError` from `int`/`float` parsing or tuple unpacking). -/
inductive PyErr where
  | indexError
  | valueError
deriving DecidableEq

deriving instance DecidableEq for Except

/-- A `QModelIndex`: a validity flag plus row/column.  The model is flat
(every `parent` is the invalid root), so no parent is recorded.  Invalid
indexes are what `PropertyModel.index` returns when `hasIndex` fails. -/
structure QIndex where
  valid : Bool
  row : Nat
  col : Nat
deriving DecidableEq

/-- The `PropertyItem` dataclass (main.py lines 54-58): `name`, `value`,
`type`.  The dynamically typed `value` field is the type parameter `α`. -/
structure PropertyItem (α : Type) where
  name : String
  value : α
  type : String
deriving DecidableEq

/-- The mutable state of `PropertyModel` (lines 607-616): the ordered
property list, the `is_undo_redo` suppression flag, and the two row
colors (a `QColor` is modelled by its hex name string). -/
structure PropertyModel (α : Type) where
  properties : List (PropertyItem α)
  is_undo_redo : Bool
  even_row_color : String
  odd_row_color : String
deriving DecidableEq

variable {α : Type} [DecidableEq α]

namespace PropertyModel

/-- Method `rowCount` for the invalid root parent (lines 618-621). -/
def rowCount (m : PropertyModel α) : Nat :=
  m.properties.length

/-- Method `columnCount` (lines 623-624): always 2. -/
def columnCount (_m : PropertyModel α) : Nat :=
  2

/-- Method `PropertyModel.index(row, column)` (lines 655-658): `hasIndex` accepts
a row/column inside the model's bounds under the invalid root parent;
otherwise the invalid `QModelIndex()` is returned. -/
def index (m : PropertyModel α) (row col : Nat) : QIndex :=
  if row < m.rowCount ∧ col < m.columnCount then ⟨true, row, col⟩ else ⟨false, row, col⟩

/-- Method `data(index, role)` (lines 626-648), restricted to the Display/Edit
roles the claims use: column 0 shows the property name, column 1 its
value.  (The Decoration/Background branches and the pixmap-dict special
case are presentation-only and not modelled; a valid index whose row is
outside the list cannot be produced by `index`.) -/
def data (m : PropertyModel α) (idx : QIndex) (role : Role) : Option (String ⊕ α) :=
  if idx.valid then
    match m.properties[idx.row]? with
    | none => none
    | some item =>
      if role = .display ∨ role = .edit then
        if idx.col = 0 then some (Sum.inl item.name)
        else if idx.col = 1 then some (Sum.inr item.value)
        else none
      else none
  else none

/-- The observable outcome of a successful `setData` call: the returned
boolean, the `dataChanged` emission (line 671, carried as the emitted
index), and the `afterDataChanged` emission `(index, old_value, value)`
(line 673), which is suppressed while `is_undo_redo` is set. -/
structure SetDataOut (α : Type) where
  accepted : Bool
  dataChanged : Option QIndex
  afterDataChanged : Option (QIndex × α × α)
deriving DecidableEq

/-- Method `setData(index, value, role)` (lines 663-675).  Returns the updated
model together with either an `IndexError` (a valid index whose row is
outside `self.properties`, raised by `_get_property_item`, line 685 —
unreachable for indexes built by `index`) or the boolean result and the
signal emissions. -/
def setData (m : PropertyModel α) (idx : QIndex) (v : α) (role : Role) :
    PropertyModel α × Except PyErr (SetDataOut α) :=
  if idx.valid ∧ role = .edit then
    match m.properties[idx.row]? with
    | none => (m, .error .indexError)
    | some item =>
      if idx.col = 1 then
        if item.value ≠ v then
          ({ m with properties := m.properties.set idx.row { item with value := v } },
           .ok ⟨true, some idx, if m.is_undo_redo then none else some (idx, item.value, v)⟩)
        else (m, .ok ⟨false, none, none⟩)
      else (m, .ok ⟨false, none, none⟩)
  else (m, .ok ⟨false, none, none⟩)

/-- The `undo_redo_context` context manager (lines 694-700): it sets
`is_undo_redo`, runs the body, and — being a `try`/`finally` — clears the
flag on every exit path, normal or exceptional; the body's outcome (value
or raised exception) is passed through. -/
def undo_redo_context {β : Type} (body : PropertyModel α → PropertyModel α × Except PyErr β)
    (m : PropertyModel α) : PropertyModel α × Except PyErr β :=
  let p := body { m with is_undo_redo := true }
  ({ p.1 with is_undo_redo := false }, p.2)

end PropertyModel

/-- Class `PropertyChangeCommand` (lines 713-728): the undo command recording
the model index and the old/new values of one property edit. -/
structure PropertyChangeCommand (α : Type) where
  index : QIndex
  old_value : α
  new_value : α
deriving DecidableEq

namespace PropertyChangeCommand

/-- Method `PropertyChangeCommand.redo` (lines 722-724): replays the new value
through `setData` inside `undo_redo_context`. -/
def redo (c : PropertyChangeCommand α) (m : PropertyModel α) :
    PropertyModel α × Except PyErr (PropertyModel.SetDataOut α) :=
  PropertyModel.undo_redo_context
    (fun m1 => PropertyModel.setData m1 c.index c.new_value .edit) m

/-- Method `PropertyChangeCommand.undo` (lines 726-728): replays the old value
through `setData` inside `undo_redo_context`. -/
def undo (c : PropertyChangeCommand α) (m : PropertyModel α) :
    PropertyModel α × Except PyErr (PropertyModel.SetDataOut α) :=
  PropertyModel.undo_redo_context
    (fun m1 => PropertyModel.setData m1 c.index c.old_value .edit) m

end PropertyChangeCommand

/-- The per-window mutable state the claims range over: the
`PropertyModel` together with the contents of the window's undo command
stack.  Modelled from the spec: the `QUndoStack` class is toolkit code
absent from the repository; spec §4.3 specifies it as an ordered command
sequence with a cursor in `[0, length]`, commands below the cursor having
been applied. -/
structure AppState (α : Type) where
  model : PropertyModel α
  commands : List (PropertyChangeCommand α)
  cursor : Nat
deriving DecidableEq

namespace AppState

/-- Modelled from the spec (§4.3, toolkit `QUndoStack.push`):
`push(cmd)`: truncate the sequence to the cursor, append `cmd`, apply its
"do" effect, `cursor += 1`.  The cursor advances only when the "do"
effect did not raise. -/
def push (s : AppState α) (c : PropertyChangeCommand α) :
    AppState α × Except PyErr (PropertyModel.SetDataOut α) :=
  let cs := s.commands.take s.cursor ++ [c]
  let p := c.redo s.model
  match p.2 with
  | .error e => (⟨p.1, cs, s.cursor⟩, .error e)
  | .ok out => (⟨p.1, cs, s.cursor + 1⟩, .ok out)

/-- Modelled from the spec (§4.3, toolkit `QUndoStack.undo`): `undo()` is
a no-op at cursor 0; otherwise it decrements the cursor and applies that
command's "undo" effect. -/
def undo (s : AppState α) : AppState α × Except PyErr Unit :=
  if s.cursor = 0 then (s, .ok ())
  else
    match s.commands[s.cursor - 1]? with
    | none => (s, .ok ())
    | some c =>
      let p := c.undo s.model
      (⟨p.1, s.commands, s.cursor - 1⟩, p.2.map fun _ => ())

/-- Modelled from the spec (§4.3, toolkit `QUndoStack.redo`): `redo()` is
a no-op at cursor = length; otherwise it applies the command at the
cursor and increments the cursor. -/
def redo (s : AppState α) : AppState α × Except PyErr Unit :=
  if s.cursor = s.commands.length then (s, .ok ())
  else
    match s.commands[s.cursor]? with
    | none => (s, .ok ())
    | some c =>
      let p := c.redo s.model
      (⟨p.1, s.commands, s.cursor + 1⟩, p.2.map fun _ => ())

/-- Handler `MainWindow.afterDataChanged` (lines 875-877): wrap the emitted
`(index, old_value, new_value)` delta in a `PropertyChangeCommand` and
push it onto the undo stack. -/
def afterDataChanged (s : AppState α) (idx : QIndex) (old_value new_value : α) :
    AppState α × Except PyErr (PropertyModel.SetDataOut α) :=
  push s ⟨idx, old_value, new_value⟩

/-- One interactive value edit, as wired in the application: the delegate
commits the value through `setData` on the value column (e.g.
`StringDelegate.setModelData`, line 162), and — when the model emits
`afterDataChanged` — the `MainWindow.afterDataChanged` handler pushes the
recorded command. -/
def userEdit (s : AppState α) (row : Nat) (v : α) : AppState α × Except PyErr Bool :=
  let idx := s.model.index row 1
  let p := PropertyModel.setData s.model idx v .edit
  match p.2 with
  | .error e => (⟨p.1, s.commands, s.cursor⟩, .error e)
  | .ok out =>
    match out.afterDataChanged with
    | none => (⟨p.1, s.commands, s.cursor⟩, .ok out.accepted)
    | some (i, ov, nv) =>
      let q := afterDataChanged ⟨p.1, s.commands, s.cursor⟩ i ov nv
      match q.2 with
      | .error e => (q.1, .error e)
      | .ok _ => (q.1, .ok out.accepted)

/-- A sequence of interactive edits, applied left to right. -/
def userEdits : AppState α → List (Nat × α) → AppState α
  | s, [] => s
  | s, e :: es => userEdits (userEdit s e.1 e.2).1 es

/-- Calling `undo()` `n` times. -/
def undoTimes : AppState α → Nat → AppState α
  | s, 0 => s
  | s, n + 1 => undoTimes (undo s).1 n

/-- Calling `redo()` `n` times. -/
def redoTimes : AppState α → Nat → AppState α
  | s, 0 => s
  | s, n + 1 => redoTimes (redo s).1 n

/-- The edit `(row, v)` takes effect at state `s`: the row exists and `v`
differs from its current value, so `setData` accepts it and a command is
recorded. -/
def takesEffect (s : AppState α) (row : Nat) (v : α) : Bool :=
  match s.model.properties[row]? with
  | none => false
  | some item => decide (item.value ≠ v)

/-- Every edit of the sequence takes effect at the state it is applied
to. -/
def allTakeEffect : AppState α → List (Nat × α) → Bool
  | _, [] => true
  | s, e :: es => takesEffect s e.1 e.2 && allTakeEffect (userEdit s e.1 e.2).1 es

/-- The `afterDataChanged` emission of a `setData` outcome (`none` when
the call raised). -/
def afterEmission : Except PyErr (PropertyModel.SetDataOut α) → Option (QIndex × α × α)
  | .ok out => out.afterDataChanged
  | .error _ => none

/-- Whether an outcome is a normal (non-raising) return. -/
def exceptOk {ε β : Type} : Except ε β → Bool
  | .ok _ => true
  | .error _ => false

end AppState

/-- The delegate classes of the editor — one constructor per entry of the
`PropertyEditor.delegates` dictionary (lines 736-761).  `string` is the
`StringDelegate`, the fallback adapter. -/
inductive DelegateKind where
  | string
  | color
  | bool
  | int
  | float
  | date
  | datetime
  | time
  | file
  | font
  | icon
  | cursor
  | url
  | keysequence
  | palette
  | byteArray
  | pixmap
  | stringlist
  | vec2
  | vec2f
  | vec3
  | vec3f
  | vec4
  | vec4f
deriving DecidableEq

namespace PropertyEditor

/-- The `PropertyEditor.delegates` dictionary (lines 736-761), mapping a
type tag to its delegate. -/
def delegates : List (String × DelegateKind) :=
  [("string", .string), ("color", .color), ("bool", .bool), ("int", .int),
   ("float", .float), ("date", .date), ("datetime", .datetime), ("time", .time),
   ("file", .file), ("font", .font), ("icon", .icon), ("cursor", .cursor),
   ("url", .url), ("keysequence", .keysequence), ("palette", .palette),
   ("ByteArray", .byteArray), ("Pixmap", .pixmap), ("Stringlist", .stringlist),
   ("vec2", .vec2), ("vec2f", .vec2f), ("vec3", .vec3), ("vec3f", .vec3f),
   ("vec4", .vec4), ("vec4f", .vec4f)]

/-- Python `dict.get(key, default)` over an association list (the keys of
`delegates` are distinct, so linear lookup matches dict semantics). -/
def dictGet {β : Type} (key : String) : List (String × β) → β → β
  | [], d => d
  | (k, v) :: rest, d => if key = k then v else dictGet key rest d

/-- The delegate `PropertyEditor.setModel` assigns for a type tag
(line 793): `self.delegates.get(property_type, StringDelegate())`. -/
def delegateFor (tag : String) : DelegateKind :=
  dictGet tag delegates .string

/-- The type tags that have a registered delegate. -/
def registeredTags : List String :=
  delegates.map Prod.fst

end PropertyEditor

/-! ## Textual value parsing and formatting (the vector delegates)

Python's `str.split`, `int`/`float` parsing and float formatting are
embedded as character-list functions.  Float values are modelled as exact
rationals: every numeric literal the program's textual vector protocol
exchanges is an exact decimal. -/

/-- Python `str.split(sep)` for a one-character separator: splits at every
occurrence and keeps empty parts. -/
def splitOnChar (sep : Char) : List Char → List (List Char)
  | [] => [[]]
  | c :: cs =>
    match splitOnChar sep cs, decide (c = sep) with
    | r, true => [] :: r
    | [], false => [[c]]
    | p :: ps, false => (c :: p) :: ps

/-- Drop leading space characters. -/
def dropSpaces : List Char → List Char
  | [] => []
  | c :: cs => if c = ' ' then dropSpaces cs else c :: cs

/-- Python `str.strip()` restricted to spaces (the only whitespace the
program's values contain). -/
def stripSpaces (cs : List Char) : List Char :=
  (dropSpaces (dropSpaces cs).reverse).reverse

/-- The numeric value of a digit string (most significant first). -/
def digitsToNat (ds : List Char) : Nat :=
  ds.foldl (fun a c => a * 10 + (c.toNat - 48)) 0

/-- An optional leading `+`/`-` sign. -/
def parseSign : List Char → Int × List Char
  | '-' :: cs => (-1, cs)
  | '+' :: cs => (1, cs)
  | cs => (1, cs)

/-- A Python float value that is an exact decimal, represented as
`num / 10 ^ exp`.  Every numeric component the program's textual vector
protocol exchanges is such a decimal, and on them IEEE-754 parsing
followed by `repr` formatting is exact.  Kept normalized (`num` not
divisible by 10 unless `exp = 0`), so structural equality is value
equality. -/
structure PyFloat where
  num : Int
  exp : Nat
deriving DecidableEq

/-- Normalize `n / 10 ^ e` by cancelling factors of 10 (structural on the
exponent). -/
def normDec : Int → Nat → PyFloat
  | n, 0 => ⟨n, 0⟩
  | n, e + 1 => if (10 : Int) ∣ n then normDec (n / 10) e else ⟨n, e + 1⟩

/-- Python `float(s)` restricted to optional-sign decimal literals with
optional surrounding spaces — `[+-]? digits [. digits]` with at least one
digit (exponent forms, `inf`/`nan` and other whitespace are not used by
the program and are not modelled).  The value is returned as an exact
decimal; anything else raises `ValueError`. -/
def pyFloat (s : String) : Except PyErr PyFloat :=
  let t := stripSpaces s.toList
  let (sgn, u) := parseSign t
  match splitOnChar '.' u with
  | [ds] =>
    if ds ≠ [] ∧ ds.all Char.isDigit then
      .ok (normDec (sgn * (digitsToNat ds : Int)) 0)
    else .error .valueError
  | [ip, fp] =>
    if (ip ≠ [] ∨ fp ≠ []) ∧ ip.all Char.isDigit ∧ fp.all Char.isDigit then
      .ok (normDec (sgn * (digitsToNat ip * 10 ^ fp.length + digitsToNat fp : Int)) fp.length)
    else .error .valueError
  | _ => .error .valueError

/-- Python `int(s)`: optional-sign digit string with optional surrounding
spaces; anything else raises `ValueError`. -/
def pyInt (s : String) : Except PyErr Int :=
  let t := stripSpaces s.toList
  let (sgn, u) := parseSign t
  if u ≠ [] ∧ u.all Char.isDigit then .ok (sgn * (digitsToNat u : Int))
  else .error .valueError

/-- The character of a decimal digit. -/
def digitChar : Nat → Char
  | 0 => '0'
  | 1 => '1'
  | 2 => '2'
  | 3 => '3'
  | 4 => '4'
  | 5 => '5'
  | 6 => '6'
  | 7 => '7'
  | 8 => '8'
  | _ => '9'

/-- Decimal digits of a natural number (fuel-based recursion on `n/10`). -/
def natDigitsAux : Nat → Nat → List Char
  | 0, _ => []
  | fuel + 1, n => if n < 10 then [digitChar n] else natDigitsAux fuel (n / 10) ++ [digitChar (n % 10)]

/-- Decimal digits of a natural number, most significant first. -/
def natDigits (n : Nat) : List Char :=
  natDigitsAux (n + 1) n

/-- Python `repr`/f-string formatting of a float whose value is an exact
decimal: the shortest decimal digit string, with at least one fractional
digit (`f"{1.0}" = "1.0"`, `f"{2.5}" = "2.5"`, `f"{0.5}" = "0.5"`). -/
def pyFloatRepr (q : PyFloat) : String :=
  let k := q.exp
  let ds := natDigits q.num.natAbs
  let padded := List.replicate (k + 1 - ds.length) '0' ++ ds
  let ip := padded.take (padded.length - k)
  let fp := padded.drop (padded.length - k)
  String.mk ((if q.num < 0 then ['-'] else []) ++ ip ++ '.' :: (if k = 0 then ['0'] else fp))

namespace Vec3fDelegate

/-- The value parsing of `Vec3fDelegate.setEditorData` (lines 527-532):
`x, y, z = map(float, value.split(","))`.  A malformed component or a
component count other than three raises `ValueError` to the caller. -/
def parseEditorValue (value : String) : Except PyErr (PyFloat × PyFloat × PyFloat) :=
  match (splitOnChar ',' value.toList).mapM (fun p => pyFloat (String.mk p)) with
  | .error e => .error e
  | .ok [x, y, z] => .ok (x, y, z)
  | .ok _ => .error .valueError

/-- The value formatting of `Vec3fDelegate.setModelData` (lines 534-536):
`f"{x},{y},{z}"` over the three component values. -/
def formatModelValue (x y z : PyFloat) : String :=
  pyFloatRepr x ++ "," ++ pyFloatRepr y ++ "," ++ pyFloatRepr z

end Vec3fDelegate

/-- The editor-level state: the model/undo-stack state plus the filter
pattern currently installed on the `QSortFilterProxyModel`.
`PropertyEditor.setFilter` (lines 799-804) stores the pattern on the
proxy (and re-runs the delegate assignment); it touches neither the
property records nor the undo stack. -/
structure PropertyEditor (α : Type) where
  app : AppState α
  filterPattern : String
deriving DecidableEq

namespace PropertyEditor

/-- Method `PropertyEditor.setFilter(filter_pattern)` (lines 799-804). -/
def setFilter (es : PropertyEditor α) (pattern : String) : PropertyEditor α :=
  { es with filterPattern := pattern }

/-- Whether the first character list starts the second. -/
def leadsChars : List Char → List Char → Bool
  | [], _ => true
  | _ :: _, [] => false
  | a :: as, b :: bs => a = b && leadsChars as bs

/-- Whether the first character list occurs inside the second. -/
def containsChars (pat : List Char) : List Char → Bool
  | [] => leadsChars pat []
  | c :: cs => leadsChars pat (c :: cs) || containsChars pat cs

/-- The rows the proxy model lets through: properties whose name matches
the filter pattern.  The spec leaves the library's exact regex matching
semantics unspecified ("an external-library detail"); plain-text patterns
are modelled as substring containment, and the empty pattern matches
every row. -/
def visibleRows (es : PropertyEditor α) : List (PropertyItem α) :=
  es.app.model.properties.filter
    (fun item => containsChars es.filterPattern.toList item.name.toList)

/-- The delegates `PropertyEditor.setModel` assigns to the visible rows
(lines 789-794), in row order. -/
def assignedDelegates (es : PropertyEditor α) : List DelegateKind :=
  (visibleRows es).map (fun item => delegateFor item.type)

end PropertyEditor

/-! ## Sample states

The store of the spec's concrete scenario: one string property
`("Name", "Process 1")`, fresh model flags and colors (lines 610-616),
an empty command stack. -/

/-- The one-property model of the spec's concrete scenario. -/
def sampleModel : PropertyModel String :=
  ⟨[⟨"Name", "Process 1", "string"⟩], false, "#000000", "#000000"⟩

/-- The scenario's initial application state: `sampleModel`, empty undo
stack, cursor 0. -/
def sampleApp : AppState String :=
  ⟨sampleModel, [], 0⟩

/-! ## Supporting lemmas -/

/-- Writing back the element a list holds at a position leaves the list
unchanged. -/
theorem set_of_getElem?_self {γ : Type} (l : List γ) (n : Nat) (a : γ)
    (h : l[n]? = some a) : l.set n a = l := by
  induction l generalizing n with
  | nil => simp at h
  | cons x t ih =>
    cases n with
    | zero =>
      simp only [List.getElem?_cons_zero, Option.some.injEq] at h
      simp [h]
    | succ k =>
      simp only [List.getElem?_cons_succ] at h
      simp [ih k h]

/-- Python `dict.get` returns the default when the key is absent. -/
theorem dictGet_default_of_not_mem {β : Type} (key : String) (l : List (String × β)) (d : β)
    (h : key ∉ l.map Prod.fst) : PropertyEditor.dictGet key l d = d := by
  induction l with
  | nil => rfl
  | cons p t ih =>
    obtain ⟨k, v⟩ := p
    simp only [List.map_cons, List.mem_cons, not_or] at h
    simp only [PropertyEditor.dictGet, if_neg h.1]
    exact ih h.2

omit [DecidableEq α] in
/-- The `index` method returns a valid value-column index for an in-range row. -/
theorem index_valid_value_col (m : PropertyModel α) (row : Nat)
    (h : row < m.properties.length) : m.index row 1 = ⟨true, row, 1⟩ := by
  simp [PropertyModel.index, PropertyModel.rowCount, PropertyModel.columnCount, h]

/-- A `setData` call on the value column of an existing row with a different
value: the record is updated and both signals fire (`afterDataChanged`
unless the suppression flag is set). -/
theorem setData_accepts (m : PropertyModel α) (row : Nat) (v : α)
    (item : PropertyItem α) (hrow : m.properties[row]? = some item) (hv : item.value ≠ v) :
    PropertyModel.setData m ⟨true, row, 1⟩ v .edit
      = ({ m with properties := m.properties.set row { item with value := v } },
         .ok ⟨true, some ⟨true, row, 1⟩,
              if m.is_undo_redo then none else some (⟨true, row, 1⟩, item.value, v)⟩) := by
  simp [PropertyModel.setData, hrow, hv]

/-- A `setData` call on the value column of an existing row with the value it
already holds: rejected, nothing changes, nothing is emitted. -/
theorem setData_rejects_equal (m : PropertyModel α) (row : Nat)
    (item : PropertyItem α) (hrow : m.properties[row]? = some item) :
    PropertyModel.setData m ⟨true, row, 1⟩ item.value .edit = (m, .ok ⟨false, none, none⟩) := by
  simp [PropertyModel.setData, hrow]

/-- While the suppression flag is set, no `setData` call emits
`afterDataChanged`. -/
theorem setData_suppressed (m : PropertyModel α) (idx : QIndex) (v : α) (role : Role)
    (h : m.is_undo_redo = true) :
    AppState.afterEmission (PropertyModel.setData m idx v role).2 = none := by
  unfold PropertyModel.setData
  split
  · cases hrow : m.properties[idx.row]? with
    | none => rfl
    | some item =>
      by_cases hc : idx.col = 1
      · by_cases hvv : item.value ≠ v
        · simp [hrow, hc, hvv, AppState.afterEmission, h]
        · simp [hrow, hc, hvv, AppState.afterEmission]
      · simp [hrow, hc, AppState.afterEmission]
  · rfl

omit [DecidableEq α] in
/-- Clearing an already-clear suppression flag is the identity. -/
theorem clear_flag_of_clear (m : PropertyModel α) (h : m.is_undo_redo = false) :
    ({ m with is_undo_redo := false } : PropertyModel α) = m := by
  cases m
  simp_all

/-- A replay through `undo_redo_context` that writes the value the row
already holds: rejected, model unchanged, nothing emitted. -/
theorem context_write_rejected (m : PropertyModel α) (row : Nat) (w : α)
    (item : PropertyItem α) (hflag : m.is_undo_redo = false)
    (hrow : m.properties[row]? = some item) (hv : item.value = w) :
    PropertyModel.undo_redo_context
        (fun m1 => PropertyModel.setData m1 ⟨true, row, 1⟩ w .edit) m
      = (m, .ok ⟨false, none, none⟩) := by
  unfold PropertyModel.undo_redo_context
  have h1 : PropertyModel.setData { m with is_undo_redo := true } ⟨true, row, 1⟩ w .edit
      = ({ m with is_undo_redo := true }, .ok ⟨false, none, none⟩) := by
    rw [← hv]
    exact setData_rejects_equal { m with is_undo_redo := true } row item hrow
  simp only [h1]
  exact Prod.ext (clear_flag_of_clear m hflag) rfl

/-- A replay through `undo_redo_context` that writes a value different
from the row's current one: the record is updated, `dataChanged` fires,
but `afterDataChanged` is suppressed and the flag ends clear. -/
theorem context_write_applied (m : PropertyModel α) (row : Nat) (w : α)
    (item : PropertyItem α) (hflag : m.is_undo_redo = false)
    (hrow : m.properties[row]? = some item) (hv : item.value ≠ w) :
    PropertyModel.undo_redo_context
        (fun m1 => PropertyModel.setData m1 ⟨true, row, 1⟩ w .edit) m
      = ({ m with properties := m.properties.set row { item with value := w } },
         .ok ⟨true, some ⟨true, row, 1⟩, none⟩) := by
  unfold PropertyModel.undo_redo_context
  have h1 := setData_accepts { m with is_undo_redo := true } row w item hrow hv
  simp only [h1]
  exact Prod.ext (clear_flag_of_clear { m with properties := m.properties.set row { item with value := w } } hflag) rfl

/-- An interactive edit that takes effect: the record is updated, the redo
tail above the cursor is dropped, the command carrying the actual old/new
values is appended, and the cursor advances; the push-time replay finds
the value already applied and leaves the model untouched. -/
theorem userEdit_effective_eq (s : AppState α) (row : Nat) (v : α)
    (item : PropertyItem α) (hflag : s.model.is_undo_redo = false)
    (hrow : s.model.properties[row]? = some item) (hv : item.value ≠ v) :
    AppState.userEdit s row v
      = (⟨⟨s.model.properties.set row { item with value := v }, false,
           s.model.even_row_color, s.model.odd_row_color⟩,
          s.commands.take s.cursor ++ [⟨⟨true, row, 1⟩, item.value, v⟩],
          s.cursor + 1⟩, .ok true) := by
  obtain ⟨m, cmds, cur⟩ := s
  obtain ⟨props, flag, ec, oc⟩ := m
  change flag = false at hflag
  subst hflag
  change props[row]? = some item at hrow
  have hlt : row < props.length := (List.getElem?_eq_some.mp hrow).1
  have hidx : PropertyModel.index (α := α) ⟨props, false, ec, oc⟩ row 1 = ⟨true, row, 1⟩ :=
    index_valid_value_col _ row hlt
  have h1 : PropertyModel.setData (α := α) ⟨props, false, ec, oc⟩ ⟨true, row, 1⟩ v .edit
      = (⟨props.set row { item with value := v }, false, ec, oc⟩,
         .ok ⟨true, some ⟨true, row, 1⟩, some (⟨true, row, 1⟩, item.value, v)⟩) := by
    simpa using setData_accepts (α := α) ⟨props, false, ec, oc⟩ row v item hrow hv
  have hrow2 : (props.set row { item with value := v })[row]? = some { item with value := v } :=
    List.getElem?_set_self hlt
  have h2 : PropertyChangeCommand.redo ⟨⟨true, row, 1⟩, item.value, v⟩
      ⟨props.set row { item with value := v }, false, ec, oc⟩
      = (⟨props.set row { item with value := v }, false, ec, oc⟩, .ok ⟨false, none, none⟩) :=
    context_write_rejected _ row v { item with value := v } rfl hrow2 rfl
  unfold AppState.userEdit AppState.afterDataChanged AppState.push
  simp [hidx, h1, h2]

/-- Projection of `userEdit_effective_eq` to the state, for an effective edit, for rewriting. -/
theorem userEdit_effective_state (s : AppState α) (row : Nat) (v : α)
    (item : PropertyItem α) (hflag : s.model.is_undo_redo = false)
    (hrow : s.model.properties[row]? = some item) (hv : item.value ≠ v) :
    (AppState.userEdit s row v).1
      = ⟨⟨s.model.properties.set row { item with value := v }, false,
          s.model.even_row_color, s.model.odd_row_color⟩,
         s.commands.take s.cursor ++ [⟨⟨true, row, 1⟩, item.value, v⟩],
         s.cursor + 1⟩ :=
  congrArg Prod.fst (userEdit_effective_eq s row v item hflag hrow hv)

/-- Peeling the last of `n + 1` undo calls. -/
theorem undoTimes_succ_right (s : AppState α) (n : Nat) :
    AppState.undoTimes s (n + 1) = (AppState.undo (AppState.undoTimes s n)).1 := by
  induction n generalizing s with
  | zero => rfl
  | succ k ih =>
    show AppState.undoTimes (AppState.undo s).1 (k + 1) = _
    rw [ih]
    rfl

/-- Frame facts about a sequence of effective interactive edits: the
suppression flag stays clear, the cursor advances once per edit and stays
within the sequence, and the commands below the starting cursor are
untouched. -/
theorem userEdits_effective_frame (edits : List (Nat × α)) (s : AppState α)
    (hflag : s.model.is_undo_redo = false) (hc : s.cursor ≤ s.commands.length)
    (heff : AppState.allTakeEffect s edits = true) :
    (AppState.userEdits s edits).model.is_undo_redo = false
  ∧ (AppState.userEdits s edits).cursor = s.cursor + edits.length
  ∧ (AppState.userEdits s edits).cursor ≤ (AppState.userEdits s edits).commands.length
  ∧ (AppState.userEdits s edits).commands.take s.cursor = s.commands.take s.cursor := by
  induction edits generalizing s with
  | nil => exact ⟨hflag, rfl, hc, rfl⟩
  | cons e es ih =>
    obtain ⟨row, v⟩ := e
    simp only [AppState.allTakeEffect, Bool.and_eq_true] at heff
    obtain ⟨h1, h2⟩ := heff
    simp only [AppState.takesEffect] at h1
    cases hrow : s.model.properties[row]? with
    | none => rw [hrow] at h1; cases h1
    | some item =>
      rw [hrow] at h1
      have hv : item.value ≠ v := of_decide_eq_true h1
      have hstate := userEdit_effective_state s row v item hflag hrow hv
      have hlen : (s.commands.take s.cursor).length = s.cursor := by
        rw [List.length_take]
        exact Nat.min_eq_left hc
      rw [hstate] at h2
      simp only [AppState.userEdits, hstate]
      set S1 : AppState α :=
        ⟨⟨s.model.properties.set row { item with value := v }, false,
          s.model.even_row_color, s.model.odd_row_color⟩,
         s.commands.take s.cursor ++ [⟨⟨true, row, 1⟩, item.value, v⟩], s.cursor + 1⟩
        with hS1
      have hm1 : S1.model.is_undo_redo = false := by rw [hS1]
      have hcur1 : S1.cursor = s.cursor + 1 := by rw [hS1]
      have hcmds1 : S1.commands
          = s.commands.take s.cursor ++ [⟨⟨true, row, 1⟩, item.value, v⟩] := by rw [hS1]
      have hlen1 : S1.commands.length = S1.cursor := by
        rw [hcmds1, hcur1]
        simp [hlen]
      obtain ⟨f1, f2, f3, f4⟩ := ih S1 hm1 (le_of_eq hlen1.symm) h2
      refine ⟨f1, ?_, f3, ?_⟩
      · rw [f2, hcur1, List.length_cons]
        omega
      · have e1 : ((AppState.userEdits S1 es).commands.take S1.cursor).take s.cursor
            = (AppState.userEdits S1 es).commands.take s.cursor := by
          rw [List.take_take, hcur1]
          congr 1
          omega
        have e2 : (s.commands.take s.cursor
              ++ [(⟨⟨true, row, 1⟩, item.value, v⟩ : PropertyChangeCommand α)]).take (s.cursor + 1)
            = s.commands.take s.cursor ++ [⟨⟨true, row, 1⟩, item.value, v⟩] :=
          List.take_of_length_le (by simp [hlen])
        rw [← e1, f4, hcmds1, hcur1, e2, List.take_append_eq_append_take, hlen]
        simp [List.take_take]

/-- Round-trip law, inductive core: after a sequence of effective
interactive edits, undoing once per edit restores the starting model
(stack contents and all), and redoing once per edit from there restores
the post-edit state exactly. -/
theorem round_trip_aux (edits : List (Nat × α)) (s : AppState α)
    (hflag : s.model.is_undo_redo = false) (hc : s.cursor ≤ s.commands.length)
    (heff : AppState.allTakeEffect s edits = true) :
    AppState.undoTimes (AppState.userEdits s edits) edits.length
        = ⟨s.model, (AppState.userEdits s edits).commands, s.cursor⟩
  ∧ AppState.redoTimes ⟨s.model, (AppState.userEdits s edits).commands, s.cursor⟩ edits.length
      = AppState.userEdits s edits := by
  induction edits generalizing s with
  | nil => exact ⟨rfl, rfl⟩
  | cons e es ih =>
    obtain ⟨row, v⟩ := e
    simp only [AppState.allTakeEffect, Bool.and_eq_true] at heff
    obtain ⟨h1, h2⟩ := heff
    simp only [AppState.takesEffect] at h1
    cases hrow : s.model.properties[row]? with
    | none => rw [hrow] at h1; cases h1
    | some item =>
      rw [hrow] at h1
      have hv : item.value ≠ v := of_decide_eq_true h1
      have hlt : row < s.model.properties.length := (List.getElem?_eq_some.mp hrow).1
      have hstate := userEdit_effective_state s row v item hflag hrow hv
      have hlen : (s.commands.take s.cursor).length = s.cursor := by
        rw [List.length_take]
        exact Nat.min_eq_left hc
      rw [hstate] at h2
      simp only [AppState.userEdits, hstate, List.length_cons]
      set S1 : AppState α :=
        ⟨⟨s.model.properties.set row { item with value := v }, false,
          s.model.even_row_color, s.model.odd_row_color⟩,
         s.commands.take s.cursor ++ [⟨⟨true, row, 1⟩, item.value, v⟩], s.cursor + 1⟩
        with hS1
      have hm1 : S1.model.is_undo_redo = false := by rw [hS1]
      have hcur1 : S1.cursor = s.cursor + 1 := by rw [hS1]
      have hcmds1 : S1.commands
          = s.commands.take s.cursor ++ [⟨⟨true, row, 1⟩, item.value, v⟩] := by rw [hS1]
      have hlen1 : S1.commands.length = S1.cursor := by
        rw [hcmds1, hcur1]
        simp [hlen]
      have hc1 : S1.cursor ≤ S1.commands.length := le_of_eq hlen1.symm
      obtain ⟨g1, g2, g3, g4⟩ := userEdits_effective_frame es S1 hm1 hc1 h2
      obtain ⟨u_ih, r_ih⟩ := ih S1 hm1 hc1 h2
      have hgetc : (AppState.userEdits S1 es).commands[s.cursor]?
          = some ⟨⟨true, row, 1⟩, item.value, v⟩ := by
        have h3 : ((AppState.userEdits S1 es).commands.take S1.cursor)[s.cursor]?
            = (AppState.userEdits S1 es).commands[s.cursor]? := by
          rw [List.getElem?_take]
          exact if_pos (by rw [hcur1]; omega)
        have h4 : S1.commands.take S1.cursor = S1.commands :=
          List.take_of_length_le (le_of_eq hlen1)
        rw [← h3, g4, h4, hcmds1, List.getElem?_append_right (le_of_eq hlen), hlen]
        simp
      have hrow2 : S1.model.properties[row]? = some { item with value := v } :=
        List.getElem?_set_self hlt
      have hundo : (PropertyChangeCommand.undo ⟨⟨true, row, 1⟩, item.value, v⟩ S1.model).1
          = s.model := by
        show (PropertyModel.undo_redo_context
            (fun m1 => PropertyModel.setData m1 ⟨true, row, 1⟩ item.value .edit) S1.model).1
          = s.model
        rw [context_write_applied S1.model row item.value { item with value := v } hm1 hrow2
            (Ne.symm hv)]
        show (⟨(s.model.properties.set row { item with value := v }).set row item, false,
               s.model.even_row_color, s.model.odd_row_color⟩ : PropertyModel α) = s.model
        rw [List.set_set, set_of_getElem?_self _ _ _ hrow]
        exact clear_flag_of_clear s.model hflag
      have hredo : (PropertyChangeCommand.redo ⟨⟨true, row, 1⟩, item.value, v⟩ s.model).1
          = S1.model := by
        show (PropertyModel.undo_redo_context
            (fun m1 => PropertyModel.setData m1 ⟨true, row, 1⟩ v .edit) s.model).1 = S1.model
        rw [context_write_applied s.model row v item hflag hrow hv]
        show ({ s.model with properties := s.model.properties.set row { item with value := v } }
              : PropertyModel α)
          = ⟨s.model.properties.set row { item with value := v }, false,
             s.model.even_row_color, s.model.odd_row_color⟩
        rw [← hflag]
      constructor
      · rw [undoTimes_succ_right, u_ih]
        simp only [AppState.undo, hcur1, Nat.succ_ne_zero, if_false, Nat.add_sub_cancel, hgetc]
        rw [hundo]
      · simp only [AppState.redoTimes]
        have hlt2 : s.cursor < (AppState.userEdits S1 es).commands.length := by omega
        have hne2 : ¬ ((⟨s.model, (AppState.userEdits S1 es).commands, s.cursor⟩ : AppState α).cursor
            = (⟨s.model, (AppState.userEdits S1 es).commands, s.cursor⟩ : AppState α).commands.length) := by
          dsimp only
          omega
        have hstep : (AppState.redo ⟨s.model, (AppState.userEdits S1 es).commands, s.cursor⟩).1
            = ⟨S1.model, (AppState.userEdits S1 es).commands, S1.cursor⟩ := by
          simp only [AppState.redo, hgetc, if_neg hne2]
          rw [hredo]
        rw [hstep, r_ih]

/-! ## The claims -/

/-- Claim C3: during an undo/redo replay of a property-value change the
suppression flag is set for the duration of the replayed `setData` call —
`undo_redo_context` hands the body the flag-set model and, being a
`try`/`finally`, clears the flag on every exit path, also when the body
raises — so the replay never emits the command-recording
`afterDataChanged` notification, and the stack's undo/redo operations
never enqueue a new command. -/
theorem undo_redo_replay_suppressed :
    (∀ (β : Type) (body : PropertyModel α → PropertyModel α × Except PyErr β)
        (m : PropertyModel α),
        PropertyModel.undo_redo_context body m
          = (let p := body { m with is_undo_redo := true }
             ({ p.1 with is_undo_redo := false }, p.2)))
  ∧ (∀ (c : PropertyChangeCommand α) (m : PropertyModel α),
        (c.redo m).1.is_undo_redo = false
      ∧ (c.undo m).1.is_undo_redo = false
      ∧ AppState.afterEmission (c.redo m).2 = none
      ∧ AppState.afterEmission (c.undo m).2 = none)
  ∧ (∀ s : AppState α,
        (AppState.undo s).1.commands = s.commands
      ∧ (AppState.redo s).1.commands = s.commands) := by
  refine ⟨fun β body m => rfl, fun c m => ⟨rfl, rfl, ?_, ?_⟩, fun s => ⟨?_, ?_⟩⟩
  · exact setData_suppressed _ _ _ _ rfl
  · exact setData_suppressed _ _ _ _ rfl
  · unfold AppState.undo
    split
    · rfl
    · split <;> rfl
  · unfold AppState.redo
    split
    · rfl
    · split <;> rfl

/-- Claim C4: writing a value equal to the row's current stored value
returns `False`, leaves every record unchanged, emits neither
`dataChanged` nor `afterDataChanged`, and — through the full interactive
edit path — pushes no command onto the undo stack. -/
theorem equal_value_write_is_silent (s : AppState α) (row : Nat) (v : α)
    (item : PropertyItem α) (hrow : s.model.properties[row]? = some item)
    (hv : item.value = v) :
    PropertyModel.setData s.model (s.model.index row 1) v .edit
        = (s.model, .ok ⟨false, none, none⟩)
  ∧ AppState.userEdit s row v = (s, .ok false) := by
  have hlt : row < s.model.properties.length := (List.getElem?_eq_some.mp hrow).1
  have h1 : PropertyModel.setData s.model (s.model.index row 1) v .edit
      = (s.model, .ok ⟨false, none, none⟩) := by
    rw [index_valid_value_col s.model row hlt, ← hv]
    exact setData_rejects_equal s.model row item hrow
  refine ⟨h1, ?_⟩
  simp [AppState.userEdit, h1]

/-- Claim C4 witness: the silent equal-value write at the scenario store. -/
theorem equal_value_write_is_silent_witness :
    PropertyModel.setData sampleApp.model (sampleApp.model.index 0 1) "Process 1" .edit
        = (sampleApp.model, .ok ⟨false, none, none⟩)
  ∧ AppState.userEdit sampleApp 0 "Process 1" = (sampleApp, .ok false) :=
  equal_value_write_is_silent sampleApp 0 "Process 1" ⟨"Name", "Process 1", "string"⟩ rfl rfl

/-- Claim C5: a write to the read-only name column, or to a row outside the
stored property list, returns `False` without raising: the model is
unchanged, no notification is emitted (`afterDataChanged = none`, so no
command is recorded).  Writes reach `setData` with indexes built by
`PropertyModel.index`, whose `hasIndex` guard turns an out-of-range row
into the invalid index that `setData` rejects before touching the list. -/
theorem readonly_or_out_of_range_write_is_silent (m : PropertyModel α)
    (row col : Nat) (v : α) (h : col = 0 ∨ m.properties.length ≤ row) :
    PropertyModel.setData m (m.index row col) v .edit = (m, .ok ⟨false, none, none⟩) := by
  by_cases hr : row < m.properties.length
  · rcases h with h0 | hge
    · subst h0
      have hidx : m.index row 0 = ⟨true, row, 0⟩ := by
        simp [PropertyModel.index, PropertyModel.rowCount, PropertyModel.columnCount, hr]
      rw [hidx]
      rcases List.getElem?_eq_some.mpr ⟨hr, rfl⟩ with hrow
      simp [PropertyModel.setData, List.getElem?_eq_getElem hr]
    · exact absurd hge (not_le.mpr hr)
  · have hidx : m.index row col = ⟨false, row, col⟩ := by
      simp [PropertyModel.index, PropertyModel.rowCount, hr]
    rw [hidx]
    simp [PropertyModel.setData]

/-- Claim C5 witness: a name-column write and an out-of-range write at the
scenario store. -/
theorem readonly_or_out_of_range_write_is_silent_witness :
    PropertyModel.setData sampleModel (sampleModel.index 0 0) "X" .edit
        = (sampleModel, .ok ⟨false, none, none⟩)
  ∧ PropertyModel.setData sampleModel (sampleModel.index 7 1) "X" .edit
        = (sampleModel, .ok ⟨false, none, none⟩) :=
  ⟨readonly_or_out_of_range_write_is_silent sampleModel 0 0 "X" (Or.inl rfl),
   readonly_or_out_of_range_write_is_silent sampleModel 7 1 "X" (Or.inr (by decide))⟩

/-- Claim C6: `undo()` at cursor 0 and `redo()` at cursor = sequence length
are graceful no-ops: the command sequence, the cursor, and the property
store are all unchanged, and no exception is raised. -/
theorem boundary_undo_redo_noop (s : AppState α) :
    (s.cursor = 0 → AppState.undo s = (s, .ok ()))
  ∧ (s.cursor = s.commands.length → AppState.redo s = (s, .ok ())) := by
  constructor
  · intro h
    unfold AppState.undo
    rw [if_pos h]
  · intro h
    unfold AppState.redo
    rw [if_pos h]

/-- Claim C6 witness: both boundary no-ops at the scenario's initial state
(empty stack: cursor 0 is also the sequence length). -/
theorem boundary_undo_redo_noop_witness :
    AppState.undo sampleApp = (sampleApp, .ok ())
  ∧ AppState.redo sampleApp = (sampleApp, .ok ()) :=
  ⟨(boundary_undo_redo_noop sampleApp).1 rfl, (boundary_undo_redo_noop sampleApp).2 rfl⟩

/-- Claim C7: a type tag outside the registered dictionary keys makes the
row's editor-adapter lookup fall back to the plain string adapter
(`StringDelegate`), the only default behavior; adapter parse failures are
returned to the caller as the raised `ValueError` (here: the Vec3f
adapter on a malformed component), not reported or swallowed anywhere. -/
theorem unknown_tag_uses_string_delegate (tag : String)
    (h : tag ∉ PropertyEditor.registeredTags) :
    PropertyEditor.delegateFor tag = .string
  ∧ Vec3fDelegate.parseEditorValue "1.0,oops,3.0" = .error .valueError :=
  ⟨dictGet_default_of_not_mem tag PropertyEditor.delegates .string h, by decide⟩

/-- Claim C7 witness: the fallback at the unregistered tag `"quaternion"`. -/
theorem unknown_tag_uses_string_delegate_witness :
    PropertyEditor.delegateFor "quaternion" = .string
  ∧ Vec3fDelegate.parseEditorValue "1.0,oops,3.0" = .error .valueError :=
  unknown_tag_uses_string_delegate "quaternion" (by decide)

/-- Claim C8: the Vec3f adapter round-trips the textual value
`"1.0,2.0,3.0"`: parsing yields the components `(1.0, 2.0, 3.0)` (the
exact decimals `⟨1,0⟩`, `⟨2,0⟩`, `⟨3,0⟩`, i.e. `1/10^0` …), and
re-serializing those components yields exactly `"1.0,2.0,3.0"` again. -/
theorem vec3f_value_round_trip :
    Vec3fDelegate.parseEditorValue "1.0,2.0,3.0" = .ok (⟨1, 0⟩, ⟨2, 0⟩, ⟨3, 0⟩)
  ∧ Vec3fDelegate.formatModelValue ⟨1, 0⟩ ⟨2, 0⟩ ⟨3, 0⟩ = "1.0,2.0,3.0" := by
  decide

omit [DecidableEq α] in
/-- Claim C9: applying the filter leaves the underlying application state —
property records and undo-command history — untouched, and applying the
same pattern twice gives the same state, the same visible-row set and the
same delegate assignment as applying it once. -/
theorem setFilter_frame_and_idempotent (es : PropertyEditor α) (pattern : String) :
    (PropertyEditor.setFilter es pattern).app = es.app
  ∧ PropertyEditor.setFilter (PropertyEditor.setFilter es pattern) pattern
      = PropertyEditor.setFilter es pattern
  ∧ PropertyEditor.visibleRows
        (PropertyEditor.setFilter (PropertyEditor.setFilter es pattern) pattern)
      = PropertyEditor.visibleRows (PropertyEditor.setFilter es pattern)
  ∧ PropertyEditor.assignedDelegates
        (PropertyEditor.setFilter (PropertyEditor.setFilter es pattern) pattern)
      = PropertyEditor.assignedDelegates (PropertyEditor.setFilter es pattern) :=
  ⟨rfl, rfl, rfl, rfl⟩

/-- Claim C1: for every sequence of interactive edits each of which records
a command (N pushed commands), calling `undo()` N times returns the store
to its initial state and calling `redo()` N times returns it to the
post-push state.  Concretely, on a store holding the string property
`("Name", "Process 1")`, editing to `"Process 2"` gives stack length 1,
cursor 1, displayed value `"Process 2"`; `undo()` gives `"Process 1"` and
cursor 0; `redo()` gives `"Process 2"` and cursor 1. -/
theorem undo_redo_round_trip :
    (∀ (s : AppState α) (edits : List (Nat × α)),
        s.model.is_undo_redo = false →
        s.cursor ≤ s.commands.length →
        AppState.allTakeEffect s edits = true →
          AppState.undoTimes (AppState.userEdits s edits) edits.length
              = ⟨s.model, (AppState.userEdits s edits).commands, s.cursor⟩
        ∧ AppState.redoTimes ⟨s.model, (AppState.userEdits s edits).commands, s.cursor⟩
              edits.length
            = AppState.userEdits s edits)
  ∧ (let s1 := (AppState.userEdit sampleApp 0 "Process 2").1
     let u := (AppState.undo s1).1
     let r := (AppState.redo u).1
     s1.commands.length = 1 ∧ s1.cursor = 1
       ∧ PropertyModel.data s1.model (s1.model.index 0 1) .display = some (.inr "Process 2")
       ∧ PropertyModel.data u.model (u.model.index 0 1) .display = some (.inr "Process 1")
       ∧ u.cursor = 0
       ∧ PropertyModel.data r.model (r.model.index 0 1) .display = some (.inr "Process 2")
       ∧ r.cursor = 1) :=
  ⟨fun s edits => round_trip_aux edits s, by decide⟩

/-- Claim C1 witness: the round-trip law applied to the concrete scenario
(one effective edit `"Process 1" → "Process 2"`). -/
theorem undo_redo_round_trip_witness :
    AppState.undoTimes (AppState.userEdits sampleApp [(0, "Process 2")]) 1
        = ⟨sampleApp.model, (AppState.userEdits sampleApp [(0, "Process 2")]).commands,
           sampleApp.cursor⟩
  ∧ AppState.redoTimes
        ⟨sampleApp.model, (AppState.userEdits sampleApp [(0, "Process 2")]).commands,
         sampleApp.cursor⟩ 1
      = AppState.userEdits sampleApp [(0, "Process 2")] :=
  undo_redo_round_trip.1 sampleApp [(0, "Process 2")] rfl (by decide) (by decide)

/-- Claim C2: pushing with the cursor strictly below the sequence length
drops every command at index ≥ cursor, appends the new command, and —
when its "do" effect returns normally — advances the cursor by one.
Concretely: push A, push B, `undo()` (cursor 1), push C gives the
sequence `[A, C]`, and a subsequent `redo()` is a no-op. -/
theorem push_invalidates_redo_tail :
    (∀ (s : AppState α) (c : PropertyChangeCommand α),
        (AppState.push s c).1.commands = s.commands.take s.cursor ++ [c]
      ∧ (AppState.push s c).1.cursor
          = (if AppState.exceptOk (c.redo s.model).2 then s.cursor + 1 else s.cursor))
  ∧ (let s1 := (AppState.userEdit sampleApp 0 "P2").1
     let s2 := (AppState.userEdit s1 0 "P3").1
     let s3 := (AppState.undo s2).1
     let s4 := (AppState.userEdit s3 0 "P4").1
     s2.commands = [⟨⟨true, 0, 1⟩, "Process 1", "P2"⟩, ⟨⟨true, 0, 1⟩, "P2", "P3"⟩]
       ∧ s3.cursor = 1
       ∧ s4.commands = [⟨⟨true, 0, 1⟩, "Process 1", "P2"⟩, ⟨⟨true, 0, 1⟩, "P2", "P4"⟩]
       ∧ s4.cursor = 2
       ∧ AppState.redo s4 = (s4, .ok ())) := by
  constructor
  · intro s c
    unfold AppState.push
    cases h : (c.redo s.model).2 <;> simp [h, AppState.exceptOk]
  · decide

/-- Claim C10: an interactive edit applies the value to the store before
the resulting command is pushed, so the "do" effect run at push time
finds `new_value` equal to the stored value and is a no-op: the push
changes no record, emits neither `dataChanged` nor `afterDataChanged`,
and creates no further command. -/
theorem push_time_redo_is_noop (m : PropertyModel α) (row : Nat) (v : α)
    (item : PropertyItem α) (hflag : m.is_undo_redo = false)
    (hrow : m.properties[row]? = some item) (hv : item.value ≠ v) :
    AppState.afterEmission (PropertyModel.setData m (m.index row 1) v .edit).2
        = some (⟨true, row, 1⟩, item.value, v)
  ∧ PropertyChangeCommand.redo ⟨⟨true, row, 1⟩, item.value, v⟩
        (PropertyModel.setData m (m.index row 1) v .edit).1
      = ((PropertyModel.setData m (m.index row 1) v .edit).1, .ok ⟨false, none, none⟩)
  ∧ ∀ (cs : List (PropertyChangeCommand α)) (k : Nat),
      (AppState.push ⟨(PropertyModel.setData m (m.index row 1) v .edit).1, cs, k⟩
          ⟨⟨true, row, 1⟩, item.value, v⟩).1.model
        = (PropertyModel.setData m (m.index row 1) v .edit).1 := by
  have hlt : row < m.properties.length := (List.getElem?_eq_some.mp hrow).1
  have hidx := index_valid_value_col m row hlt
  have h1 := setData_accepts m row v item hrow hv
  have hrow2 : ({ m with properties := m.properties.set row { item with value := v } }
        : PropertyModel α).properties[row]? = some { item with value := v } :=
    List.getElem?_set_self hlt
  have h2 : PropertyChangeCommand.redo ⟨⟨true, row, 1⟩, item.value, v⟩
      ({ m with properties := m.properties.set row { item with value := v } } : PropertyModel α)
      = ({ m with properties := m.properties.set row { item with value := v } },
         .ok ⟨false, none, none⟩) :=
    context_write_rejected _ row v { item with value := v } hflag hrow2 rfl
  rw [hidx, h1]
  refine ⟨by simp [AppState.afterEmission, hflag], h2, ?_⟩
  intro cs k
  unfold AppState.push
  simp [h2]

/-- Claim C10 witness: the no-op push-time replay at the scenario store. -/
theorem push_time_redo_is_noop_witness :
    AppState.afterEmission
        (PropertyModel.setData sampleModel (sampleModel.index 0 1) "Process 2" .edit).2
        = some (⟨true, 0, 1⟩, "Process 1", "Process 2")
  ∧ PropertyChangeCommand.redo ⟨⟨true, 0, 1⟩, "Process 1", "Process 2"⟩
        (PropertyModel.setData sampleModel (sampleModel.index 0 1) "Process 2" .edit).1
      = ((PropertyModel.setData sampleModel (sampleModel.index 0 1) "Process 2" .edit).1,
         .ok ⟨false, none, none⟩)
  ∧ ∀ (cs : List (PropertyChangeCommand String)) (k : Nat),
      (AppState.push
          ⟨(PropertyModel.setData sampleModel (sampleModel.index 0 1) "Process 2" .edit).1, cs, k⟩
          ⟨⟨true, 0, 1⟩, "Process 1", "Process 2"⟩).1.model
        = (PropertyModel.setData sampleModel (sampleModel.index 0 1) "Process 2" .edit).1 :=
  push_time_redo_is_noop sampleModel 0 "Process 2" ⟨"Name", "Process 1", "string"⟩
    rfl rfl (by decide)

end PropEdit
